import Mathlib

/-!
Verification of the negative-keyword manager's core algorithms.

The development shallowly embeds the repository's code:

* `src/src/utils/calculations.ts` — the Scorer (`identifyOpportunities`,
  `recommendMatchType`, `recommendLevel` and helpers) and the Aggregator
  sums (`calculateWastedSpend`, `calculatePotentialSavings`).
* the Apps-Script web API (`validateKeyword`, `addNegativeKeywords`,
  `handleAddNegativeKeywords`).
* `src/scripts/google-ads-script-negative.js` — the Worker
  (`getPendingKeywords`, `updateKeywordStatus`,
  `processPendingNegativeKeywords`).

JavaScript numbers are modelled as exact rationals (the claims under
study concern predicate structure and sums, not floating-point
rounding); JS strings as Lean strings; a missing/undefined string field
as the empty string, matching JS truthiness at every site the code
tests it. Nondeterministic inputs (`Date.now()`, `Math.random()`,
`new Date().toISOString()`) are passed in as explicit parameters.
External effects (the AdsApp account mutation) are passed in as a
dispatch oracle that can either return a result object or throw.
-/

/-- Substring test on character lists: does the haystack start with the
needle?  Backs the model of JS `String.prototype.includes`. -/
def charsStartWith : List Char → List Char → Bool
  | _, [] => true
  | [], _ :: _ => false
  | h :: hs, n :: ns => h == n && charsStartWith hs ns

/-- Does the needle occur as a contiguous substring of the haystack?
Model of JS `String.prototype.includes`. -/
def charsContain : List Char → List Char → Bool
  | [], ns => charsStartWith [] ns
  | h :: t, ns => charsStartWith (h :: t) ns || charsContain t ns

/-- JS `hay.includes(needle)`. -/
def strContains (hay needle : String) : Bool :=
  charsContain hay.data needle.data

/-- JS `s.toLowerCase()` (character-wise; the terms under study are
ASCII, where the two agree). -/
def jsToLower (s : String) : String := ⟨s.data.map Char.toLower⟩

/-- Worker for `jsSplitOnSpace`: accumulate the current word (reversed)
and cut at every single space, keeping empty pieces, exactly like JS
`s.split(' ')`. -/
def splitAux : List Char → List Char → List String
  | [], acc => [⟨acc.reverse⟩]
  | c :: cs, acc => if c = ' ' then ⟨acc.reverse⟩ :: splitAux cs [] else splitAux cs (c :: acc)

/-- JS `s.split(' ')`: split on each single space character, keeping
empty pieces; the empty string yields `[""]`. -/
def jsSplitOnSpace (s : String) : List String := splitAux s.data []

/-- Remove leading and trailing whitespace from a character list. -/
def trimChars (l : List Char) : List Char :=
  ((l.dropWhile Char.isWhitespace).reverse.dropWhile Char.isWhitespace).reverse

/-- JS `s.trim()`. -/
def jsTrim (s : String) : String := ⟨trimChars s.data⟩

/-- JS `s.startsWith(pre)`. -/
def jsStartsWith (s pre : String) : Bool :=
  pre.data.isPrefixOf s.data

/-- One row of the performance store (`SearchTermData` in
`src/src/types`), restricted to the fields the functions under
verification read. -/
structure SearchTermData where
  searchTerm : String
  campaignName : String
  adGroupName : String
  cost : ℚ
  clicks : ℕ
  impressions : ℕ
  conversions : ℚ
deriving DecidableEq, Repr

/-- A Scorer candidate (`NegativeKeywordOpportunity` in
`src/src/types`). Match type and level are carried as the TS string
literals. -/
structure NegativeKeywordOpportunity where
  searchTerm : String
  cost : ℚ
  clicks : ℕ
  conversions : ℚ
  potentialSavings : ℚ
  recommendedMatchType : String
  recommendedLevel : String
  campaignName : String
  adGroupName : String
deriving DecidableEq, Repr

/-- JS `arr.reduce((total, item) => total + item.cost, 0)`. -/
def reduceCost (l : List SearchTermData) : ℚ :=
  l.foldl (fun total item => total + item.cost) 0

/-- `calculations.calculateWastedSpend` from
`src/src/utils/calculations.ts`: sum of cost over rows with zero
conversions. -/
def calculateWastedSpend (data : List SearchTermData) : ℚ :=
  reduceCost (data.filter fun item => item.conversions == 0)

/-- `calculations.calculatePotentialSavings` from
`src/src/utils/calculations.ts`: sum of cost over rows with zero
conversions and cost above 5. -/
def calculatePotentialSavings (data : List SearchTermData) : ℚ :=
  reduceCost (data.filter fun item => item.conversions == 0 && decide ((5 : ℚ) < item.cost))

/-- `negativeKeywordAnalysis.containsBrandTerms`. -/
def containsBrandTerms (term : String) : Bool :=
  ["brand", "official", "store", "shop", "buy", "purchase"].any fun brand => strContains term brand

/-- `negativeKeywordAnalysis.containsProductTerms`. -/
def containsProductTerms (term : String) : Bool :=
  ["price", "cost", "cheap", "free", "discount", "sale"].any fun product => strContains term product

/-- `negativeKeywordAnalysis.recommendMatchType`. -/
def recommendMatchType (searchTerm : String) : String :=
  let term := jsToLower searchTerm
  if (jsSplitOnSpace term).length == 1 || term.length ≤ 3 then "EXACT"
  else if containsBrandTerms term || containsProductTerms term then "PHRASE"
  else "BROAD"

/-- `negativeKeywordAnalysis.isAdGroupSpecific`: the share of search-term
words overlapping an ad-group-name word exceeds one half.  JS computes
`matchingWords.length / searchWords.length > 0.5`; the quotient is taken
in ℚ (exact for these magnitudes). -/
def isAdGroupSpecific (searchTerm adGroupName : String) : Bool :=
  let adGroupWords := jsSplitOnSpace (jsToLower adGroupName)
  let searchWords := jsSplitOnSpace (jsToLower searchTerm)
  let matchingWords := searchWords.filter fun word =>
    adGroupWords.any fun adGroupWord => strContains adGroupWord word || strContains word adGroupWord
  decide ((matchingWords.length : ℚ) / (searchWords.length : ℚ) > 1 / 2)

/-- `negativeKeywordAnalysis.isCampaignSpecific`: at least one
search-term word overlaps a campaign-name word. -/
def isCampaignSpecific (searchTerm campaignName : String) : Bool :=
  let campaignWords := jsSplitOnSpace (jsToLower campaignName)
  let searchWords := jsSplitOnSpace (jsToLower searchTerm)
  let matchingWords := searchWords.filter fun word =>
    campaignWords.any fun campaignWord => strContains campaignWord word || strContains word campaignWord
  decide (matchingWords.length > 0)

/-- `negativeKeywordAnalysis.recommendLevel`. -/
def recommendLevel (item : SearchTermData) : String :=
  if isAdGroupSpecific item.searchTerm item.adGroupName then "AD_GROUP"
  else if isCampaignSpecific item.searchTerm item.campaignName then "CAMPAIGN"
  else "SHARED_LIST"

/-- The Scorer's qualifying filter from `identifyOpportunities`:
no conversions, cost above 5, at least one click. -/
def oppQualifies (item : SearchTermData) : Bool :=
  item.conversions == 0 && decide ((5 : ℚ) < item.cost) && decide (0 < item.clicks)

/-- The candidate built for one qualifying row inside
`identifyOpportunities`. -/
def mkOpportunity (item : SearchTermData) : NegativeKeywordOpportunity :=
  { searchTerm := item.searchTerm
    cost := item.cost
    clicks := item.clicks
    conversions := item.conversions
    potentialSavings := item.cost
    recommendedMatchType := recommendMatchType item.searchTerm
    recommendedLevel := recommendLevel item
    campaignName := item.campaignName
    adGroupName := item.adGroupName }

/-- `negativeKeywordAnalysis.identifyOpportunities`: filter, map to
candidates, then sort descending by `potentialSavings` (JS
`Array.prototype.sort` is stable; `mergeSort` with the flipped `≤` is
the matching stable descending sort). -/
def identifyOpportunities (data : List SearchTermData) : List NegativeKeywordOpportunity :=
  ((data.filter oppQualifies).map mkOpportunity).mergeSort
    fun a b => decide (b.potentialSavings ≤ a.potentialSavings)

/-- JS `opportunities.reduce((sum, opp) => sum + opp.potentialSavings, 0)`. -/
def opportunitySavingsSum (l : List NegativeKeywordOpportunity) : ℚ :=
  l.foldl (fun total opp => total + opp.potentialSavings) 0

/-- A submitted negative-keyword request as received by the web API.
An absent/undefined field is the empty string (falsy in JS at every
site the code tests it). -/
structure Keyword where
  text : String := ""
  matchType : String := ""
  level : String := ""
  campaignId : String := ""
  campaignName : String := ""
  adGroupId : String := ""
  adGroupName : String := ""
  sharedListId : String := ""
  sharedListName : String := ""
deriving DecidableEq, Repr

/-- `validateKeyword` from the Apps-Script web API: pushes one error
message per violated rule, in source order, and returns the list. -/
def validateKeyword (keyword : Keyword) : List String :=
  (if keyword.text = "" ∨ (jsTrim keyword.text).length = 0 then
    ["Keyword text is required"] else []) ++
  (if keyword.text ≠ "" ∧ keyword.text.length > 80 then
    ["Keyword text must be 80 characters or less"] else []) ++
  (if keyword.matchType ∉ ["EXACT", "PHRASE", "BROAD"] then
    ["Invalid match type. Must be EXACT, PHRASE, or BROAD"] else []) ++
  (if keyword.level ∉ ["CAMPAIGN", "AD_GROUP", "SHARED_LIST"] then
    ["Invalid level. Must be CAMPAIGN, AD_GROUP, or SHARED_LIST"] else []) ++
  (if keyword.level = "CAMPAIGN" ∧ keyword.campaignId = "" then
    ["Campaign ID is required for campaign level keywords"] else []) ++
  (if keyword.level = "AD_GROUP" ∧ (keyword.campaignId = "" ∨ keyword.adGroupId = "") then
    ["Campaign ID and Ad Group ID are required for ad group level keywords"] else []) ++
  (if keyword.level = "SHARED_LIST" ∧ keyword.sharedListId = "" then
    ["Shared List ID is required for shared list keywords"] else [])

/-- One 14-column row of the NegativeKeywords sheet — the Ledger. -/
structure LedgerRow where
  id : String := ""
  text : String := ""
  matchType : String := ""
  level : String := ""
  campaignId : String := ""
  campaignName : String := ""
  adGroupId : String := ""
  adGroupName : String := ""
  sharedListId : String := ""
  sharedListName : String := ""
  addedDate : String := ""
  status : String := ""
  message : String := ""
  processedDate : String := ""
deriving DecidableEq, Repr

/-- The id generated inside `addNegativeKeywords`:
`new_` + `Date.now()` + `_` + a random base-36 suffix.  The timestamp
and the per-row random draw are explicit parameters of the model. -/
def mkId (nowMs : ℕ) (suf : String) : String :=
  "new_" ++ toString nowMs ++ "_" ++ suf

/-- The 14-column row `addNegativeKeywords` builds for one request. -/
def mkLedgerRow (nowMs : ℕ) (nowIso : String) (suf : String) (keyword : Keyword) : LedgerRow :=
  { id := mkId nowMs suf
    text := keyword.text
    matchType := keyword.matchType
    level := keyword.level
    campaignId := keyword.campaignId
    campaignName := keyword.campaignName
    adGroupId := keyword.adGroupId
    adGroupName := keyword.adGroupName
    sharedListId := keyword.sharedListId
    sharedListName := keyword.sharedListName
    addedDate := nowIso
    status := "PENDING"
    message := "Waiting for processing"
    processedDate := "" }

/-- Result record of `addNegativeKeywords`. -/
structure AddResult where
  added : ℕ
  failed : ℕ
  errors : List String
deriving DecidableEq, Repr

/-- `addNegativeKeywords(sheet, keywords)` from the Apps-Script web
API: builds one new 14-column row per request and writes the block
after the sheet's last row.  Row construction cannot throw in the
model, so the per-item catch contributes `added = keywords.length`,
`failed = 0`, no errors — as in the source when no storage fault
occurs.  `sufs i` is the random suffix drawn for the i-th request. -/
def addNegativeKeywords (sheet : List LedgerRow) (keywords : List Keyword)
    (nowMs : ℕ) (nowIso : String) (sufs : ℕ → String) : AddResult × List LedgerRow :=
  let newRows := keywords.enum.map fun p => mkLedgerRow nowMs nowIso (sufs p.1) p.2
  ({ added := keywords.length, failed := 0, errors := [] }, sheet ++ newRows)

/-- Outcome of the `handleAddNegativeKeywords` endpoint: either
`createErrorResponse(message, code)` or a success payload echoing
`added`/`failed`/`errors` from the sheet write. -/
inductive HandlerResult where
  | errorResponse (message : String) (code : ℕ)
  | response (added : ℕ) (failed : ℕ) (errors : List String)
deriving DecidableEq, Repr

/-- The per-item validation-error messages `handleAddNegativeKeywords`
collects: one entry per request whose `validateKeyword` list is
non-empty. -/
def keywordErrorMessages (keywords : List Keyword) : List String :=
  keywords.enum.filterMap fun p =>
    if validateKeyword p.2 ≠ [] then
      some ("Keyword " ++ toString (p.1 + 1) ++ ": " ++ String.intercalate ", " (validateKeyword p.2))
    else none

/-- `handleAddNegativeKeywords` from the Apps-Script web API, modelled
from the decoded request body onward (transport decoding and the
sheet-handle lookup are environment concerns; the advisory trigger-row
append touches a different sheet and is outside the Ledger state
modelled here).  Note the source rejects the WHOLE batch with a 400
response when any single request fails validation. -/
def handleAddNegativeKeywords (sheet : List LedgerRow) (keywords : List Keyword)
    (nowMs : ℕ) (nowIso : String) (sufs : ℕ → String) : HandlerResult × List LedgerRow :=
  if keywords.length = 0 then (.errorResponse "Invalid keywords data" 400, sheet)
  else if keywordErrorMessages keywords ≠ [] then
    (.errorResponse ("Validation errors: " ++ String.intercalate "; " (keywordErrorMessages keywords)) 400,
      sheet)
  else
    let result := addNegativeKeywords sheet keywords nowMs nowIso sufs
    (.response result.1.added result.1.failed result.1.errors, result.2)

/-- The Worker's pending-row test from `getPendingKeywords`: status
column empty or `PENDING`, id truthy and starting with `new_`. -/
def isPendingRow (row : LedgerRow) : Bool :=
  (row.status == "" || row.status == "PENDING") && row.id != "" && jsStartsWith row.id "new_"

/-- The record `getPendingKeywords` pushes for one pending row;
`rowIndex` is the 1-indexed sheet row (data row i sits at sheet row
i + 2, below the header). -/
structure PendingKeyword where
  rowIndex : ℕ
  id : String
  keywordText : String
  matchType : String
  level : String
  campaignId : String
  campaignName : String
  adGroupId : String
  adGroupName : String
  sharedListId : String
  sharedListName : String
  addedDate : String
deriving DecidableEq, Repr

/-- The pending record built from data row `i`. -/
def mkPendingKeyword (i : ℕ) (row : LedgerRow) : PendingKeyword :=
  { rowIndex := i + 2
    id := row.id
    keywordText := row.text
    matchType := row.matchType
    level := row.level
    campaignId := row.campaignId
    campaignName := row.campaignName
    adGroupId := row.adGroupId
    adGroupName := row.adGroupName
    sharedListId := row.sharedListId
    sharedListName := row.sharedListName
    addedDate := row.addedDate }

/-- `getPendingKeywords` from
`src/scripts/google-ads-script-negative.js`: a forEach over the data
rows pushing a record for each pending row.  `rows` is the sheet minus
its header row. -/
def getPendingKeywords (rows : List LedgerRow) : List PendingKeyword :=
  rows.enum.foldl
    (fun acc p => if isPendingRow p.2 then acc ++ [mkPendingKeyword p.1 p.2] else acc) []

/-- What one call of `addNegativeKeywordToGoogleAds` does for the
Worker loop: either it returns a result object (success flag plus
message or error text), or it throws with some exception text. -/
inductive DispatchOutcome where
  | ok (success : Bool) (message : String)
  | thrown (error : String)
deriving DecidableEq, Repr

/-- The status/message pair the Worker loop writes for one dispatch
outcome: ACTIVE with the success message, FAILED with the result's
error, or FAILED with the exception text from the catch block. -/
def outcomeStatus : DispatchOutcome → String × String
  | .ok true m => ("ACTIVE", m)
  | .ok false m => ("FAILED", m)
  | .thrown e => ("FAILED", e)

/-- `updateKeywordStatus(sheet, rowIndex, status, message)`: writes
status, message and the processing timestamp into columns 12–14 of the
given 1-indexed sheet row (data row `rowIndex - 2`). -/
def updateKeywordStatus (rows : List LedgerRow) (rowIndex : ℕ)
    (status message processedDate : String) : List LedgerRow :=
  match rows[rowIndex - 2]? with
  | some row => rows.set (rowIndex - 2)
      { row with status := status, message := message, processedDate := processedDate }
  | none => rows

/-- The per-keyword body of the loop in
`processPendingNegativeKeywords`, including its catch: an exception is
recorded as FAILED with the exception text and the loop moves on. -/
def processOneKeyword (dispatch : PendingKeyword → DispatchOutcome) (processedDate : String)
    (sheet : List LedgerRow) (k : PendingKeyword) : List LedgerRow :=
  updateKeywordStatus sheet k.rowIndex (outcomeStatus (dispatch k)).1
    (outcomeStatus (dispatch k)).2 processedDate

/-- `processPendingNegativeKeywords` from
`src/scripts/google-ads-script-negative.js`, restricted to its effect
on the Ledger sheet: scan the pending rows, dispatch each to the
external account, and write each row's outcome back.  Logging and the
trigger-sheet summary touch other state. -/
def processPendingNegativeKeywords (rows : List LedgerRow)
    (dispatch : PendingKeyword → DispatchOutcome) (processedDate : String) : List LedgerRow :=
  (getPendingKeywords rows).foldl (processOneKeyword dispatch processedDate) rows

/-! ## Spec-side definitions

These follow the specification's wording (for refinement comparisons
and for exhibiting rules the spec states); each is compared against the
corresponding definition translated from the source. -/

/-- The spec's brand-term set for `recommendMatchType`. -/
def specBrandSet : List String := ["brand", "official", "store", "shop", "buy", "purchase"]

/-- The spec's product-intent set for `recommendMatchType`. -/
def specProductSet : List String := ["price", "cost", "cheap", "free", "discount", "sale"]

/-- `recommendMatchType` as the spec sentence words it: EXACT if the
term is a single token or at most 3 characters; PHRASE if the term
contains (case-insensitive substring) any word of the brand or
product-intent set; otherwise BROAD. -/
def specRecommendMatchType (term : String) : String :=
  if (jsSplitOnSpace (jsToLower term)).length = 1 ∨ (jsToLower term).length ≤ 3 then "EXACT"
  else if (specBrandSet ++ specProductSet).any (fun needle => strContains (jsToLower term) needle) then
    "PHRASE"
  else "BROAD"

/-- The words of one string overlapping (substring in either
direction) some word of the other, per the spec's `recommendLevel`
sentence. -/
def overlapWords (words otherWords : List String) : List String :=
  words.filter fun w => otherWords.any fun o => strContains o w || strContains w o

/-- Whitespace-tokenized, lowercased words of a string (the source
tokenizes on the single space character). -/
def specWords (s : String) : List String := jsSplitOnSpace (jsToLower s)

/-- `recommendLevel` as the spec sentence words it: AD_GROUP when
strictly more than half of the search term's words overlap the
ad-group name, else CAMPAIGN when at least one word overlaps the
campaign name, else SHARED_LIST.  The strict majority is phrased by
doubling instead of by rational division. -/
def specRecommendLevel (item : SearchTermData) : String :=
  if 2 * (overlapWords (specWords item.searchTerm) (specWords item.adGroupName)).length >
      (specWords item.searchTerm).length then "AD_GROUP"
  else if (overlapWords (specWords item.searchTerm) (specWords item.campaignName)).length > 0 then
    "CAMPAIGN"
  else "SHARED_LIST"

/-- One character of the spec's `keywordText` character class
`A-Za-z0-9`, whitespace, `-_.,!?`. -/
def specKeywordChar (c : Char) : Bool :=
  ('A' ≤ c && c ≤ 'Z') || ('a' ≤ c && c ≤ 'z') || ('0' ≤ c && c ≤ '9') ||
    c.isWhitespace || ['-', '_', '.', ',', '!', '?'].contains c

/-! ## Helper lemmas -/

lemma foldl_add_cost (l : List SearchTermData) (a : ℚ) :
    l.foldl (fun total item => total + item.cost) a = a + (l.map (·.cost)).sum := by
  induction l generalizing a with
  | nil => simp
  | cons x xs ih => simp [ih, add_assoc]

lemma reduceCost_eq_sum (l : List SearchTermData) : reduceCost l = (l.map (·.cost)).sum := by
  simp [reduceCost, foldl_add_cost]

lemma foldl_add_savings (l : List NegativeKeywordOpportunity) (a : ℚ) :
    l.foldl (fun total opp => total + opp.potentialSavings) a =
      a + (l.map (·.potentialSavings)).sum := by
  induction l generalizing a with
  | nil => simp
  | cons x xs ih => simp [ih, add_assoc]

lemma opportunitySavingsSum_eq_sum (l : List NegativeKeywordOpportunity) :
    opportunitySavingsSum l = (l.map (·.potentialSavings)).sum := by
  simp [opportunitySavingsSum, foldl_add_savings]

lemma ratio_gt_half_iff (m n : ℕ) (h : m ≤ n) :
    ((m : ℚ) / (n : ℚ) > 1 / 2) ↔ 2 * m > n := by
  rcases Nat.eq_zero_or_pos n with hn | hn
  · subst hn
    have hm : m = 0 := Nat.le_zero.mp h
    subst hm
    simp
  · have hn' : (0 : ℚ) < (n : ℚ) := by exact_mod_cast hn
    rw [gt_iff_lt, lt_div_iff₀ hn']
    constructor
    · intro h2
      have : (n : ℚ) < 2 * (m : ℚ) := by linarith
      exact_mod_cast this
    · intro h2
      have : (n : ℚ) < 2 * (m : ℚ) := by exact_mod_cast h2
      linarith

lemma isAdGroupSpecific_eq_spec (s a : String) :
    isAdGroupSpecific s a =
      decide (2 * (overlapWords (specWords s) (specWords a)).length > (specWords s).length) := by
  unfold isAdGroupSpecific overlapWords specWords
  rw [decide_eq_decide]
  exact ratio_gt_half_iff _ _ (List.length_filter_le _ _)

lemma isCampaignSpecific_eq_spec (s c : String) :
    isCampaignSpecific s c =
      decide ((overlapWords (specWords s) (specWords c)).length > 0) := rfl

/-! ## C8 — match-type heuristic -/

/-- C8: for every search term, `recommendMatchType` implements the
spec's decision procedure — EXACT for a single token or at most 3
characters, else PHRASE when a brand/product-intent word occurs as a
case-insensitive substring, else BROAD — and in particular
`recommendMatchType "shoe" = EXACT`,
`recommendMatchType "cheap running shoes" = PHRASE`, and
`recommendMatchType "red running shoes" = BROAD`. -/
theorem c8_recommendMatchType_follows_spec :
    (∀ term : String, recommendMatchType term = specRecommendMatchType term) ∧
    recommendMatchType "shoe" = "EXACT" ∧
    recommendMatchType "cheap running shoes" = "PHRASE" ∧
    recommendMatchType "red running shoes" = "BROAD" := by
  have hmain : ∀ term : String, recommendMatchType term = specRecommendMatchType term := by
    intro term
    unfold recommendMatchType specRecommendMatchType containsBrandTerms containsProductTerms
      specBrandSet specProductSet
    simp only [List.any_append, Bool.or_eq_true, beq_iff_eq, decide_eq_true_eq]
  refine ⟨hmain, ?_, ?_, ?_⟩
  · rw [hmain]; decide
  · rw [hmain]; decide
  · rw [hmain]; decide

/-! ## C9 — level heuristic -/

/-- C9: for every performance row, `recommendLevel` returns AD_GROUP
exactly when strictly more than half of the search term's words have a
substring overlap (either direction) with a word of the ad-group name,
else CAMPAIGN when at least one word overlaps a word of the campaign
name, else SHARED_LIST. -/
theorem c9_recommendLevel_follows_spec (item : SearchTermData) :
    recommendLevel item = specRecommendLevel item := by
  unfold recommendLevel specRecommendLevel
  rw [isAdGroupSpecific_eq_spec, isCampaignSpecific_eq_spec]
  by_cases h1 : 2 * (overlapWords (specWords item.searchTerm) (specWords item.adGroupName)).length >
      (specWords item.searchTerm).length
  · simp [h1]
  · by_cases h2 : (overlapWords (specWords item.searchTerm) (specWords item.campaignName)).length > 0
    · simp [h1, h2]
    · simp [h1, h2]

/-! ## C10 — savings never exceed wasted spend -/

lemma savings_filter_sum_le (l : List SearchTermData) (h : ∀ item ∈ l, 0 ≤ item.cost) :
    ((l.filter fun item => item.conversions == 0 && decide ((5 : ℚ) < item.cost)).map
        (·.cost)).sum ≤
      ((l.filter fun item => item.conversions == 0).map (·.cost)).sum := by
  induction l with
  | nil => simp
  | cons x xs ih =>
    have hx : 0 ≤ x.cost := h x (List.mem_cons_self x xs)
    have ih' := ih fun i hi => h i (List.mem_cons_of_mem _ hi)
    by_cases hc : x.conversions == 0
    · by_cases h5 : (5 : ℚ) < x.cost
      · simp [List.filter_cons, hc, h5]
        linarith
      · simp [List.filter_cons, hc, h5]
        linarith
    · simp [List.filter_cons, hc]
      exact ih'

/-- C10: when every row's cost is nonnegative, the potential-savings
total never exceeds the wasted-spend total, since the savings
predicate (zero conversions and cost above 5) refines the wasted-spend
predicate (zero conversions). -/
theorem c10_savings_le_wasted (data : List SearchTermData)
    (h : ∀ item ∈ data, 0 ≤ item.cost) :
    calculatePotentialSavings data ≤ calculateWastedSpend data := by
  unfold calculatePotentialSavings calculateWastedSpend
  rw [reduceCost_eq_sum, reduceCost_eq_sum]
  exact savings_filter_sum_le data h

/-- Witness for C10 at a concrete dataset with nonnegative costs. -/
theorem c10_savings_le_wasted_witness :
    calculatePotentialSavings
        [{ searchTerm := "a", campaignName := "c", adGroupName := "g", cost := 7, clicks := 1,
           impressions := 10, conversions := 0 },
         { searchTerm := "b", campaignName := "c", adGroupName := "g", cost := 2, clicks := 1,
           impressions := 10, conversions := 0 }] ≤
      calculateWastedSpend
        [{ searchTerm := "a", campaignName := "c", adGroupName := "g", cost := 7, clicks := 1,
           impressions := 10, conversions := 0 },
         { searchTerm := "b", campaignName := "c", adGroupName := "g", cost := 2, clicks := 1,
           impressions := 10, conversions := 0 }] :=
  c10_savings_le_wasted _ (by decide)

/-! ## C5 — Scorer filter correctness, and C4 — Aggregator savings -/

lemma identifyOpportunities_perm (data : List SearchTermData) :
    (identifyOpportunities data).Perm ((data.filter oppQualifies).map mkOpportunity) :=
  List.mergeSort_perm _ _

lemma mem_identifyOpportunities {data : List SearchTermData} {c : NegativeKeywordOpportunity} :
    c ∈ identifyOpportunities data ↔ c ∈ (data.filter oppQualifies).map mkOpportunity :=
  (identifyOpportunities_perm data).mem_iff

lemma identifyOpportunities_savings_sum (data : List SearchTermData) :
    opportunitySavingsSum (identifyOpportunities data) =
      ((data.filter oppQualifies).map (·.cost)).sum := by
  rw [opportunitySavingsSum_eq_sum,
    List.Perm.sum_eq ((identifyOpportunities_perm data).map (·.potentialSavings)),
    List.map_map]
  rfl

lemma cost_sum_split (l : List SearchTermData) :
    ((l.filter fun item => item.conversions == 0 && decide ((5 : ℚ) < item.cost)).map
        (·.cost)).sum =
      ((l.filter oppQualifies).map (·.cost)).sum +
        ((l.filter fun item => item.conversions == 0 && decide ((5 : ℚ) < item.cost) &&
            !decide (0 < item.clicks)).map (·.cost)).sum := by
  induction l with
  | nil => simp
  | cons x xs ih =>
    by_cases hc : x.conversions == 0
    · by_cases h5 : (5 : ℚ) < x.cost
      · by_cases hk : 0 < x.clicks
        · simp [List.filter_cons, oppQualifies, hc, h5, hk]
          linarith
        · simp [List.filter_cons, oppQualifies, hc, h5, hk]
          linarith
      · simp [List.filter_cons, oppQualifies, hc, h5]
        exact ih
    · simp [List.filter_cons, oppQualifies, hc]
      exact ih

/-- C4 (amended): the Aggregator's `calculatePotentialSavings` equals
the sum of `potentialSavings` over the Scorer's candidates PLUS the
cost of the rows with zero conversions and cost above 5 but zero
clicks — the Scorer's filter additionally requires `clicks > 0`, so
the two qualifying predicates are not the same; they agree exactly
when no zero-click row passes the Aggregator's predicate. -/
theorem c4_savings_decomposition (data : List SearchTermData) :
    calculatePotentialSavings data =
      opportunitySavingsSum (identifyOpportunities data) +
        reduceCost (data.filter fun item =>
          item.conversions == 0 && decide ((5 : ℚ) < item.cost) && !decide (0 < item.clicks)) := by
  unfold calculatePotentialSavings
  rw [reduceCost_eq_sum, reduceCost_eq_sum, identifyOpportunities_savings_sum]
  exact cost_sum_split data

/-- A row with cost above 5, zero conversions, but zero clicks: it
counts toward `calculatePotentialSavings` yet yields no Scorer
candidate. -/
def noClickRow : SearchTermData :=
  { searchTerm := "zero click term", campaignName := "Camp", adGroupName := "Group",
    cost := 10, clicks := 0, impressions := 40, conversions := 0 }

/-- C4 counterexample: on `[noClickRow]` the Aggregator's
`calculatePotentialSavings` is 10 while the Scorer produces no
candidate at all, so the candidate savings sum is 0 — the two
computations do NOT use the same qualifying predicate. -/
theorem c4_counterexample :
    calculatePotentialSavings [noClickRow] = 10 ∧
    identifyOpportunities [noClickRow] = [] ∧
    calculatePotentialSavings [noClickRow] ≠
      opportunitySavingsSum (identifyOpportunities [noClickRow]) := by
  have hfil : List.filter oppQualifies [noClickRow] = [] := by decide
  have hio : identifyOpportunities [noClickRow] = [] := by
    rw [identifyOpportunities, hfil]
    simp
  have h1 : calculatePotentialSavings [noClickRow] = 10 := by
    norm_num [calculatePotentialSavings, reduceCost, List.filter_cons, noClickRow]
  refine ⟨h1, hio, ?_⟩
  rw [hio, h1]
  norm_num [opportunitySavingsSum]

/-- C5: a row yields a candidate iff it has zero conversions, cost
above 5 and at least one click — no qualifying row is omitted, every
candidate comes from a qualifying row — and each candidate's
`potentialSavings` equals the row's cost. -/
theorem c5_opportunity_filter (data : List SearchTermData) :
    (∀ item ∈ data, item.conversions = 0 → 5 < item.cost → 0 < item.clicks →
      mkOpportunity item ∈ identifyOpportunities data) ∧
    (∀ c ∈ identifyOpportunities data, ∃ item ∈ data,
      item.conversions = 0 ∧ 5 < item.cost ∧ 0 < item.clicks ∧ c = mkOpportunity item ∧
      c.potentialSavings = item.cost) := by
  constructor
  · intro item hmem hc h5 hk
    rw [mem_identifyOpportunities]
    exact List.mem_map_of_mem _ (List.mem_filter.mpr ⟨hmem, by simp [oppQualifies, hc, h5, hk]⟩)
  · intro c hcmem
    rw [mem_identifyOpportunities] at hcmem
    obtain ⟨item, hitem, rfl⟩ := List.mem_map.mp hcmem
    have hq := (List.mem_filter.mp hitem).2
    simp only [oppQualifies, Bool.and_eq_true, beq_iff_eq, decide_eq_true_eq] at hq
    exact ⟨item, (List.mem_filter.mp hitem).1, hq.1.1, hq.1.2, hq.2, rfl, rfl⟩

/-- A fully qualifying row for the C5 witness. -/
def qualifyingRow : SearchTermData :=
  { searchTerm := "cheap running shoes", campaignName := "Shoes Campaign",
    adGroupName := "Running Shoes", cost := 20, clicks := 5, impressions := 100, conversions := 0 }

/-- Witness for C5: the qualifying sample row produces its candidate. -/
theorem c5_opportunity_filter_witness :
    mkOpportunity qualifyingRow ∈ identifyOpportunities [qualifyingRow] :=
  (c5_opportunity_filter [qualifyingRow]).1 qualifyingRow (by simp) (by decide) (by decide)
    (by decide)

/-! ## C2 — validator rules -/

lemma if_cons_eq_nil {c : Prop} [Decidable c] {m : String} :
    ((if c then [m] else []) = []) ↔ ¬c := by
  split <;> simp_all

lemma string_length_eq_zero_iff {s : String} : s.length = 0 ↔ s = "" := by
  constructor
  · intro h
    cases s with
    | mk data =>
      have hd : data = [] := List.length_eq_zero.mp h
      simp [hd]
  · intro h
    subst h
    rfl

/-- C2 (amended): `validateKeyword` returns the empty list iff the
trimmed text is non-empty, the text has at most 80 characters, the
match type and the level are in their respective sets, and the
level-required id fields are present.  The spec's character-class rule
has no counterpart in the code (see the counterexample). -/
theorem c2_validate_empty_iff_rules (kw : Keyword) :
    validateKeyword kw = [] ↔
      (jsTrim kw.text ≠ "" ∧ kw.text.length ≤ 80 ∧
        kw.matchType ∈ ["EXACT", "PHRASE", "BROAD"] ∧
        kw.level ∈ ["CAMPAIGN", "AD_GROUP", "SHARED_LIST"] ∧
        (kw.level = "CAMPAIGN" → kw.campaignId ≠ "") ∧
        (kw.level = "AD_GROUP" → kw.campaignId ≠ "" ∧ kw.adGroupId ≠ "") ∧
        (kw.level = "SHARED_LIST" → kw.sharedListId ≠ "")) := by
  have htext : kw.text = "" → jsTrim kw.text = "" := by
    intro h
    rw [h]
    rfl
  unfold validateKeyword
  simp only [List.append_eq_nil, if_cons_eq_nil, not_or, not_and, not_not, not_lt,
    string_length_eq_zero_iff, ne_eq]
  tauto

/-- A request whose keyword text consists only of characters outside
the spec's character class, valid on every rule the code checks. -/
def atSignKeyword : Keyword :=
  { text := "@@@", matchType := "EXACT", level := "CAMPAIGN", campaignId := "123" }

/-- C2 counterexample: `validateKeyword` accepts a keyword text made
entirely of characters outside the class `A-Za-z0-9`, whitespace,
`-_.,!?` — the code checks no character class, so the claimed
"non-empty error list for out-of-class text" fails. -/
theorem c2_counterexample :
    validateKeyword atSignKeyword = [] ∧ "@@@".data.all specKeywordChar = false := by
  constructor
  · decide
  · decide

/-! ## C1 — batch admission -/

lemma keywordErrorMessages_eq_nil_iff (keywords : List Keyword) :
    keywordErrorMessages keywords = [] ↔ ∀ kw ∈ keywords, validateKeyword kw = [] := by
  unfold keywordErrorMessages
  rw [List.filterMap_eq_nil_iff]
  constructor
  · intro h kw hkw
    have hkw' : kw ∈ keywords.enum.map Prod.snd := by
      rw [List.enum_map_snd]
      exact hkw
    obtain ⟨p, hp, hpeq⟩ := List.mem_map.mp hkw'
    have hnone := h p hp
    by_cases hv : validateKeyword p.2 = []
    · rw [← hpeq]
      exact hv
    · simp [hv] at hnone
  · intro h p hp
    have hmem : p.2 ∈ keywords := by
      rw [← List.enum_map_snd keywords]
      exact List.mem_map_of_mem Prod.snd hp
    simp [h p.2 hmem]

/-- C1 (amended): each request in a batch is validated independently
and the error report is per item, but admission is all-or-nothing — if
every request is valid, all of them are appended to the Ledger and
counted in `added`; if ANY request is invalid, the handler returns an
error response and admits nothing, leaving the Ledger unchanged. -/
theorem c1_batch_admission_all_or_nothing (sheet : List LedgerRow) (keywords : List Keyword)
    (nowMs : ℕ) (nowIso : String) (sufs : ℕ → String) (hne : keywords ≠ []) :
    ((∀ kw ∈ keywords, validateKeyword kw = []) →
      handleAddNegativeKeywords sheet keywords nowMs nowIso sufs =
        (.response keywords.length 0 [],
          sheet ++ keywords.enum.map fun p => mkLedgerRow nowMs nowIso (sufs p.1) p.2)) ∧
    ((∃ kw ∈ keywords, validateKeyword kw ≠ []) →
      (∃ m, (handleAddNegativeKeywords sheet keywords nowMs nowIso sufs).1 =
        .errorResponse m 400) ∧
      (handleAddNegativeKeywords sheet keywords nowMs nowIso sufs).2 = sheet) := by
  have hlen : ¬keywords.length = 0 := fun h => hne (List.length_eq_zero.mp h)
  constructor
  · intro hall
    have hmsg : keywordErrorMessages keywords = [] :=
      (keywordErrorMessages_eq_nil_iff keywords).mpr hall
    unfold handleAddNegativeKeywords
    rw [if_neg hlen, if_neg (by simp [hmsg])]
    simp [addNegativeKeywords]
  · rintro ⟨kw, hkw, hv⟩
    have hmsg : keywordErrorMessages keywords ≠ [] := fun h =>
      hv ((keywordErrorMessages_eq_nil_iff keywords).mp h kw hkw)
    unfold handleAddNegativeKeywords
    rw [if_neg hlen, if_pos hmsg]
    exact ⟨⟨_, rfl⟩, rfl⟩

/-- A request passing every rule `validateKeyword` checks. -/
def goodKeyword : Keyword :=
  { text := "free shipping", matchType := "BROAD", level := "CAMPAIGN", campaignId := "123" }

/-- An AD_GROUP-level request missing both required id fields. -/
def badKeyword : Keyword :=
  { text := "shoes", matchType := "EXACT", level := "AD_GROUP" }

/-- Witness for C1 (amended), all-valid branch: a singleton valid batch
is admitted in full. -/
theorem c1_batch_admission_all_or_nothing_witness :
    handleAddNegativeKeywords [] [goodKeyword] 5 "2024-01-01T00:00:00Z" (fun _ => "abc123def") =
      (.response 1 0 [], [mkLedgerRow 5 "2024-01-01T00:00:00Z" "abc123def" goodKeyword]) := by
  have h := (c1_batch_admission_all_or_nothing [] [goodKeyword] 5 "2024-01-01T00:00:00Z"
    (fun _ => "abc123def") (by decide)).1 (by decide)
  rw [h]
  decide

/-- C1 counterexample: a two-request batch whose first request is valid
and whose second is invalid is rejected WHOLESALE — the handler
returns an error response and the valid request is not admitted to the
Ledger (the Ledger stays empty), contradicting per-item admission. -/
theorem c1_counterexample_mixed_batch :
    validateKeyword goodKeyword = [] ∧ validateKeyword badKeyword ≠ [] ∧
    (handleAddNegativeKeywords [] [goodKeyword, badKeyword] 5 "2024-01-01T00:00:00Z"
        fun _ => "abc123def").2 = [] ∧
    (handleAddNegativeKeywords [] [goodKeyword, badKeyword] 5 "2024-01-01T00:00:00Z"
        fun _ => "abc123def").1 =
      .errorResponse
        "Validation errors: Keyword 2: Campaign ID and Ad Group ID are required for ad group level keywords"
        400 := by
  refine ⟨by decide, by decide, by decide, by decide⟩

/-! ## C3 — the Worker's pending-row selection -/

lemma foldl_push_pending (l : List (ℕ × LedgerRow)) (acc : List PendingKeyword) :
    l.foldl (fun acc p => if isPendingRow p.2 then acc ++ [mkPendingKeyword p.1 p.2] else acc)
        acc =
      acc ++ (l.filter fun p => isPendingRow p.2).map fun p => mkPendingKeyword p.1 p.2 := by
  induction l generalizing acc with
  | nil => simp
  | cons x xs ih =>
    by_cases hx : isPendingRow x.2
    · simp [List.filter_cons, hx, ih]
    · simp [List.filter_cons, hx, ih]

lemma getPendingKeywords_eq (rows : List LedgerRow) :
    getPendingKeywords rows =
      (rows.enum.filter fun p => isPendingRow p.2).map fun p => mkPendingKeyword p.1 p.2 := by
  unfold getPendingKeywords
  rw [foldl_push_pending]
  simp

lemma isPendingRow_eq_decide (row : LedgerRow) :
    isPendingRow row =
      decide ((row.status = "" ∨ row.status = "PENDING") ∧ row.id ≠ "" ∧
        jsStartsWith row.id "new_" = true) := by
  rw [Bool.eq_iff_iff]
  simp [isPendingRow, and_assoc]

/-- C3 (amended): `getPendingKeywords` returns, in ledger order, the
records of exactly those rows whose status is empty or PENDING AND
whose id is non-empty and starts with `new_` — a PENDING row whose id
has any other shape is skipped (see the counterexample), so the
selection is narrower than "every row with status PENDING". -/
theorem c3_pending_selection (rows : List LedgerRow) :
    getPendingKeywords rows =
      (rows.enum.filter fun p =>
        decide ((p.2.status = "" ∨ p.2.status = "PENDING") ∧ p.2.id ≠ "" ∧
          jsStartsWith p.2.id "new_" = true)).map fun p => mkPendingKeyword p.1 p.2 := by
  rw [getPendingKeywords_eq]
  congr 1
  exact List.filter_congr fun p _ => isPendingRow_eq_decide p.2

/-- A PENDING row whose id does not start with `new_`. -/
def strayPendingRow : LedgerRow :=
  { id := "abc123", text := "stale term", matchType := "EXACT", level := "CAMPAIGN",
    campaignId := "1", addedDate := "2024-01-01T00:00:00Z", status := "PENDING",
    message := "Waiting for processing" }

/-- C3 counterexample: a row with status PENDING but a foreign id
format is NOT returned by `getPendingKeywords`, contradicting "every
row with status PENDING is included regardless of its id format". -/
theorem c3_counterexample :
    strayPendingRow.status = "PENDING" ∧ getPendingKeywords [strayPendingRow] = [] := by
  refine ⟨rfl, by decide⟩

/-! ## C6 — per-item exception isolation in the Worker loop -/

lemma updateKeywordStatus_getElem?_ne (rows : List LedgerRow) (rowIndex : ℕ)
    (st msg pd : String) (p : ℕ) (hp : rowIndex - 2 ≠ p) :
    (updateKeywordStatus rows rowIndex st msg pd)[p]? = rows[p]? := by
  unfold updateKeywordStatus
  cases h : rows[rowIndex - 2]? with
  | none => rfl
  | some row => exact List.getElem?_set_ne hp

lemma updateKeywordStatus_getElem?_self (rows : List LedgerRow) (rowIndex : ℕ)
    (st msg pd : String) (row : LedgerRow) (h : rows[rowIndex - 2]? = some row) :
    (updateKeywordStatus rows rowIndex st msg pd)[rowIndex - 2]? =
      some { row with status := st, message := msg, processedDate := pd } := by
  obtain ⟨hlt, -⟩ := List.getElem?_eq_some_iff.mp h
  unfold updateKeywordStatus
  rw [h]
  exact List.getElem?_set_self hlt

lemma runLoop_preserve (dispatch : PendingKeyword → DispatchOutcome) (pdate : String)
    (ks : List PendingKeyword) (sheet : List LedgerRow) (p : ℕ)
    (h : ∀ k ∈ ks, k.rowIndex - 2 ≠ p) :
    (ks.foldl (processOneKeyword dispatch pdate) sheet)[p]? = sheet[p]? := by
  induction ks generalizing sheet with
  | nil => rfl
  | cons k rest ih =>
    rw [List.foldl_cons, ih _ fun k' hk' => h k' (List.mem_cons_of_mem _ hk')]
    exact updateKeywordStatus_getElem?_ne _ _ _ _ _ _ (h k (List.mem_cons_self _ _))

lemma runLoop_writes (dispatch : PendingKeyword → DispatchOutcome) (pdate : String)
    (ks : List PendingKeyword) (sheet : List LedgerRow)
    (hnodup : (ks.map fun k => k.rowIndex).Nodup) (hge : ∀ k' ∈ ks, 2 ≤ k'.rowIndex)
    (k : PendingKeyword) (hk : k ∈ ks) (row : LedgerRow)
    (hrow : sheet[k.rowIndex - 2]? = some row) :
    (ks.foldl (processOneKeyword dispatch pdate) sheet)[k.rowIndex - 2]? =
      some { row with status := (outcomeStatus (dispatch k)).1,
                      message := (outcomeStatus (dispatch k)).2, processedDate := pdate } := by
  induction ks generalizing sheet with
  | nil => cases hk
  | cons k0 rest ih =>
    rw [List.map_cons, List.nodup_cons] at hnodup
    have hnodup0 := hnodup.1
    have hnodupr := hnodup.2
    rw [List.foldl_cons]
    rcases List.mem_cons.mp hk with heq | hkrest
    · subst heq
      rw [runLoop_preserve dispatch pdate rest _ _ ?hne]
      · exact updateKeywordStatus_getElem?_self _ _ _ _ _ _ hrow
      case hne =>
        intro k' hk' hcontra
        have hne' : k'.rowIndex ≠ k.rowIndex := by
          intro hcc
          exact hnodup0 (hcc ▸ List.mem_map_of_mem _ hk')
        have h2k : 2 ≤ k.rowIndex := hge k (List.mem_cons_self _ _)
        have h2k' : 2 ≤ k'.rowIndex := hge k' (List.mem_cons_of_mem _ hk')
        omega
    · apply ih _ hnodupr (fun k' h' => hge k' (List.mem_cons_of_mem _ h')) hkrest
      unfold processOneKeyword
      rw [updateKeywordStatus_getElem?_ne]
      · exact hrow
      · have hne' : k0.rowIndex ≠ k.rowIndex := by
          intro hcc
          exact hnodup0 (hcc ▸ List.mem_map_of_mem _ hkrest)
        have h2k : 2 ≤ k.rowIndex := hge k hk
        have h2k0 : 2 ≤ k0.rowIndex := hge k0 (List.mem_cons_self _ _)
        omega

lemma mem_getPendingKeywords_of (rows : List LedgerRow) (i : ℕ) (row : LedgerRow)
    (h : rows[i]? = some row) (hp : isPendingRow row = true) :
    mkPendingKeyword i row ∈ getPendingKeywords rows := by
  rw [getPendingKeywords_eq]
  have hx : ((i, row) : ℕ × LedgerRow) ∈ rows.enum.filter fun p => isPendingRow p.2 :=
    List.mem_filter.mpr ⟨List.mem_enum_iff_getElem?.mpr (by exact h), by exact hp⟩
  exact List.mem_map_of_mem (fun p : ℕ × LedgerRow => mkPendingKeyword p.1 p.2) hx

lemma getPendingKeywords_rowIndex_ge (rows : List LedgerRow) :
    ∀ k ∈ getPendingKeywords rows, 2 ≤ k.rowIndex := by
  intro k hk
  rw [getPendingKeywords_eq] at hk
  obtain ⟨p, -, rfl⟩ := List.mem_map.mp hk
  exact Nat.le_add_left 2 p.1

lemma getPendingKeywords_rowIndex_nodup (rows : List LedgerRow) :
    ((getPendingKeywords rows).map fun k => k.rowIndex).Nodup := by
  rw [getPendingKeywords_eq, List.map_map]
  have hfun : ((fun k : PendingKeyword => k.rowIndex) ∘
      fun p : ℕ × LedgerRow => mkPendingKeyword p.1 p.2) =
      ((fun n : ℕ => n + 2) ∘ Prod.fst) := rfl
  rw [hfun, ← List.map_map]
  apply List.Nodup.map fun a b hab => by omega
  have hsub : ((rows.enum.filter fun p => isPendingRow p.2).map Prod.fst).Sublist
      (rows.enum.map Prod.fst) := (List.filter_sublist _).map _
  rw [List.enum_map_fst] at hsub
  exact hsub.nodup (List.nodup_range _)

/-- C6: during one Worker run, if dispatching a pending request throws,
that request's row is marked FAILED with the exception text as its
message, and every pending row — including each subsequent one — still
receives the outcome of its own dispatch: no single-item exception
aborts the run. -/
theorem c6_exception_isolated_per_item (rows : List LedgerRow)
    (dispatch : PendingKeyword → DispatchOutcome) (pdate : String) (i : ℕ) (row : LedgerRow)
    (e : String) (hrow : rows[i]? = some row) (hpend : isPendingRow row = true)
    (hthrow : dispatch (mkPendingKeyword i row) = .thrown e) :
    (processPendingNegativeKeywords rows dispatch pdate)[i]? =
      some { row with status := "FAILED", message := e, processedDate := pdate } ∧
    ∀ j row', rows[j]? = some row' → isPendingRow row' = true →
      (processPendingNegativeKeywords rows dispatch pdate)[j]? =
        some { row' with status := (outcomeStatus (dispatch (mkPendingKeyword j row'))).1,
                         message := (outcomeStatus (dispatch (mkPendingKeyword j row'))).2,
                         processedDate := pdate } := by
  have hall : ∀ j row', rows[j]? = some row' → isPendingRow row' = true →
      (processPendingNegativeKeywords rows dispatch pdate)[j]? =
        some { row' with status := (outcomeStatus (dispatch (mkPendingKeyword j row'))).1,
                         message := (outcomeStatus (dispatch (mkPendingKeyword j row'))).2,
                         processedDate := pdate } := by
    intro j row' hrow' hpend'
    have hk : mkPendingKeyword j row' ∈ getPendingKeywords rows :=
      mem_getPendingKeywords_of rows j row' hrow' hpend'
    have hw := runLoop_writes dispatch pdate (getPendingKeywords rows) rows
      (getPendingKeywords_rowIndex_nodup rows) (getPendingKeywords_rowIndex_ge rows)
      (mkPendingKeyword j row') hk row' hrow'
    exact hw
  refine ⟨?_, hall⟩
  have h1 := hall i row hrow hpend
  rw [hthrow] at h1
  exact h1

/-- First pending sheet row for the C6 witness. -/
def workerRow1 : LedgerRow :=
  { id := "new_1_aaa", text := "term one", matchType := "EXACT", level := "CAMPAIGN",
    campaignId := "1", addedDate := "2024-01-01T00:00:00Z", status := "PENDING",
    message := "Waiting for processing" }

/-- Second pending sheet row for the C6 witness. -/
def workerRow2 : LedgerRow :=
  { id := "new_2_bbb", text := "term two", matchType := "PHRASE", level := "CAMPAIGN",
    campaignId := "1", addedDate := "2024-01-01T00:00:01Z", status := "PENDING",
    message := "Waiting for processing" }

/-- A dispatch oracle that throws on the first sheet row and succeeds
on any other. -/
def throwingDispatch : PendingKeyword → DispatchOutcome := fun k =>
  if k.rowIndex = 2 then .thrown "boom" else .ok true "Added to campaign"

/-- Row one after the throwing run: FAILED with the exception text. -/
def workerRow1After : LedgerRow :=
  { workerRow1 with
      status := "FAILED"
      message := "boom"
      processedDate := "pd" }

/-- Row two after the throwing run: still processed, ACTIVE. -/
def workerRow2After : LedgerRow :=
  { workerRow2 with
      status := "ACTIVE"
      message := "Added to campaign"
      processedDate := "pd" }

/-- Witness for C6: with a dispatch throwing on row one, row one ends
FAILED with the exception text and row two is still processed to
ACTIVE. -/
theorem c6_exception_isolated_per_item_witness :
    (processPendingNegativeKeywords [workerRow1, workerRow2] throwingDispatch "pd")[0]? =
      some workerRow1After ∧
    (processPendingNegativeKeywords [workerRow1, workerRow2] throwingDispatch "pd")[1]? =
      some workerRow2After := by
  have h := c6_exception_isolated_per_item [workerRow1, workerRow2] throwingDispatch "pd" 0
    workerRow1 "boom" rfl (by decide) (by decide)
  refine ⟨h.1, ?_⟩
  have h2 := h.2 1 workerRow2 rfl (by decide)
  rw [show throwingDispatch (mkPendingKeyword 1 workerRow2) = .ok true "Added to campaign"
    from rfl] at h2
  exact h2

/-! ## C7 — append-only write with stamped fields -/

lemma string_append_left_cancel {p a b : String} (h : p ++ a = p ++ b) : a = b := by
  apply String.ext
  have hd := congrArg String.data h
  rw [String.data_append, String.data_append] at hd
  exact List.append_cancel_left hd

lemma mkId_right_injective {nowMs : ℕ} {a b : String} (h : mkId nowMs a = mkId nowMs b) :
    a = b :=
  string_append_left_cancel h

/-- C7: `addNegativeKeywords` is an append-only write — every
previously existing row is unchanged at its position, the new rows sit
after them, and each new row carries a stamped `addedDate`, status
PENDING, the message "Waiting for processing", and an id that is fresh
(absent from the existing rows) and unique among the new rows.  The
freshness hypotheses state that the injected random draws are distinct
and do not reproduce an existing id, which is what `Date.now()` plus
`Math.random()` provides. -/
theorem c7_append_frame_and_stamps (sheet : List LedgerRow) (keywords : List Keyword)
    (nowMs : ℕ) (nowIso : String) (sufs : ℕ → String)
    (hinj : ∀ i j, i < keywords.length → j < keywords.length → sufs i = sufs j → i = j)
    (hfresh : ∀ i, i < keywords.length →
      mkId nowMs (sufs i) ∉ sheet.map fun r => r.id) :
    (∀ p, p < sheet.length →
      ((addNegativeKeywords sheet keywords nowMs nowIso sufs).2)[p]? = sheet[p]?) ∧
    (addNegativeKeywords sheet keywords nowMs nowIso sufs).2.length =
      sheet.length + keywords.length ∧
    (∀ r ∈ (addNegativeKeywords sheet keywords nowMs nowIso sufs).2.drop sheet.length,
      r.status = "PENDING" ∧ r.message = "Waiting for processing" ∧ r.addedDate = nowIso ∧
      (r.id ∉ sheet.map fun row => row.id)) ∧
    (((addNegativeKeywords sheet keywords nowMs nowIso sufs).2.drop sheet.length).map
      fun r => r.id).Nodup ∧
    (addNegativeKeywords sheet keywords nowMs nowIso sufs).1 =
      { added := keywords.length, failed := 0, errors := [] } := by
  have hsnd : (addNegativeKeywords sheet keywords nowMs nowIso sufs).2 =
      sheet ++ keywords.enum.map fun p => mkLedgerRow nowMs nowIso (sufs p.1) p.2 := rfl
  have hdrop : (addNegativeKeywords sheet keywords nowMs nowIso sufs).2.drop sheet.length =
      keywords.enum.map fun p => mkLedgerRow nowMs nowIso (sufs p.1) p.2 := by
    rw [hsnd]
    exact List.drop_left _ _
  have hfst : ∀ p : ℕ × Keyword, p ∈ keywords.enum → p.1 < keywords.length := by
    intro p hp
    have : p.1 ∈ keywords.enum.map Prod.fst := List.mem_map_of_mem Prod.fst hp
    rw [List.enum_map_fst] at this
    exact List.mem_range.mp this
  refine ⟨?_, ?_, ?_, ?_, rfl⟩
  · intro p hp
    rw [hsnd, List.getElem?_append, if_pos hp]
  · rw [hsnd, List.length_append, List.length_map, List.enum_length]
  · intro r hr
    rw [hdrop] at hr
    obtain ⟨p, hp, rfl⟩ := List.mem_map.mp hr
    exact ⟨rfl, rfl, rfl, hfresh p.1 (hfst p hp)⟩
  · rw [hdrop, List.map_map]
    have hfun : ((fun r : LedgerRow => r.id) ∘ fun p : ℕ × Keyword =>
        mkLedgerRow nowMs nowIso (sufs p.1) p.2) =
        ((fun n : ℕ => mkId nowMs (sufs n)) ∘ Prod.fst) := rfl
    rw [hfun, ← List.map_map, List.enum_map_fst]
    apply List.Nodup.map_on ?_ (List.nodup_range _)
    intro x hx y hy hxy
    exact hinj x y (List.mem_range.mp hx) (List.mem_range.mp hy) (mkId_right_injective hxy)

/-- An already-processed row sitting in the Ledger before an append. -/
def existingRow : LedgerRow :=
  { id := "new_0_zzz", text := "old term", matchType := "EXACT", level := "CAMPAIGN",
    campaignId := "1", addedDate := "2023-12-31T00:00:00Z", status := "ACTIVE",
    message := "Added to campaign \"One\"", processedDate := "2023-12-31T00:10:00Z" }

/-- Witness for C7 at a concrete Ledger and batch. -/
theorem c7_append_frame_and_stamps_witness :
    ((addNegativeKeywords [existingRow] [goodKeyword] 5 "2024-01-01T00:00:00Z"
        fun _ => "abc123def").2)[0]? = some existingRow ∧
    (addNegativeKeywords [existingRow] [goodKeyword] 5 "2024-01-01T00:00:00Z"
        fun _ => "abc123def").2.length = 2 := by
  have h := c7_append_frame_and_stamps [existingRow] [goodKeyword] 5 "2024-01-01T00:00:00Z"
    (fun _ => "abc123def")
    (by
      intro i j hi hj _
      simp only [List.length_singleton] at hi hj
      omega)
    (by decide)
  exact ⟨h.1 0 (by decide), h.2.1⟩
